import Mathlib

/-!
Shallow embedding of the transactional operation executor of d9-manager:
the step ledger (`src/core/state-manager.ts`), the transaction manager
(`src/core/transaction-manager.ts`), and the composite operation executor
(`src/core/operations.ts`).

Timestamps (`Date.now`, `new Date().toISOString()`) and free-form metadata
are not modelled; step ids are modelled as natural numbers (the source uses
strings generated at initialize time; the data model declares them unique).
Operations are modelled by their observable behaviour during one invocation
(`OpBehavior`), and executions produce an explicit event trace recording
every method invocation and ledger transition, in program order.
-/

namespace D9

/-- Step status, from `InstallationStep.status` in `state-manager.ts`:
`'pending' | 'in_progress' | 'completed' | 'failed' | 'skipped'`. -/
inductive Status
  | pending
  | inProgress
  | completed
  | failed
  | skipped
deriving DecidableEq, Repr

/-- One ledger step (`InstallationStep`): id, description, status, last error. -/
structure Step where
  id : Nat
  description : String
  status : Status
  error : Option String := none
deriving DecidableEq, Repr

/-- The durable transaction state (`InstallationState`): the ordered step list,
the current step index, and the step count fixed at initialization. -/
structure InstallationState where
  steps : List Step
  currentStep : Nat
  totalSteps : Nat
deriving DecidableEq, Repr

/-- `initializeState`: build a fresh state from `(id, description)` pairs, every
step `pending`, `totalSteps = steps.length`, `currentStep = 0`. -/
def initializeState (pairs : List (Nat × String)) : InstallationState :=
  { steps := pairs.map (fun p => { id := p.1, description := p.2, status := Status.pending }),
    currentStep := 0,
    totalSteps := pairs.length }

/-- The source's transition methods mutate the first step returned by
`steps.find((s) => s.id === stepId)`; this rewrites exactly that step. -/
def updateFirst (f : Step → Step) : List Step → Nat → List Step
  | [], _ => []
  | s :: rest, i => if s.id = i then f s :: rest else s :: updateFirst f rest i

/-- `steps.find((s) => s.id === stepId)`. -/
def findStep (st : InstallationState) (i : Nat) : Option Step :=
  st.steps.find? (fun s => s.id = i)

/-- The status of the step `find` would return. -/
def findStatus (st : InstallationState) (i : Nat) : Option Status :=
  (findStep st i).map Step.status

/-- The mutation `startStep` applies to the found step. -/
def setInProgress (s : Step) : Step :=
  { s with status := Status.inProgress }

/-- The mutation `completeStep` applies to the found step (the stale `error`
field is not cleared). -/
def setCompleted (s : Step) : Step :=
  { s with status := Status.completed }

/-- The mutation `failStep` applies to the found step. -/
def setFailed (err : String) (s : Step) : Step :=
  { s with status := Status.failed, error := some err }

/-- The mutation `skipStep` applies to the found step. -/
def setSkipped (s : Step) : Step :=
  { s with status := Status.skipped }

/-- `startStep`: status := in_progress, `currentStep := steps.indexOf(step)`. -/
def startStep (st : InstallationState) (i : Nat) : InstallationState :=
  { st with
    steps := updateFirst setInProgress st.steps i,
    currentStep := st.steps.findIdx (fun s => s.id = i) }

/-- `completeStep`: status := completed. -/
def completeStep (st : InstallationState) (i : Nat) : InstallationState :=
  { st with steps := updateFirst setCompleted st.steps i }

/-- `failStep`: status := failed, error := the given message. -/
def failStep (st : InstallationState) (i : Nat) (err : String) : InstallationState :=
  { st with steps := updateFirst (setFailed err) st.steps i }

/-- `skipStep`: status := skipped. -/
def skipStep (st : InstallationState) (i : Nat) : InstallationState :=
  { st with steps := updateFirst setSkipped st.steps i }

/-- The filter predicate of `getPendingSteps`:
`step.status === 'pending' || step.status === 'failed'`. -/
def isPendingOrFailed (s : Step) : Bool :=
  s.status = Status.pending || s.status = Status.failed

/-- `getPendingSteps()`: the steps whose status is `pending` or `failed`. -/
def getPendingSteps (st : InstallationState) : List Step :=
  st.steps.filter isPendingOrFailed

/-- `getCompletedSteps()`: the steps whose status is `completed`. -/
def getCompletedSteps (st : InstallationState) : List Step :=
  st.steps.filter (fun s => s.status = Status.completed)

/-- `getProgress()`: `Math.round((completed / totalSteps) * 100)` with the
rational value rounded half away from zero, i.e. `⌊100·c/t + 1/2⌋`;
`0` when `totalSteps = 0`. -/
def getProgress (st : InstallationState) : Nat :=
  if st.totalSteps = 0 then 0
  else ((getCompletedSteps st).length * 200 + st.totalSteps) / (2 * st.totalSteps)

/-- `canResume()`: false with no state; otherwise at least one completed step
and at least one pending/failed step. -/
def canResume : Option InstallationState → Bool
  | none => false
  | some st => decide (0 < (getCompletedSteps st).length) && decide (0 < (getPendingSteps st).length)

/-- The two on-disk copies of the ledger: the primary state file and the
backup path. `none` means the file does not exist. -/
structure FS where
  primary : Option InstallationState
  backup : Option InstallationState
deriving DecidableEq, Repr

/-- `saveState()`: first `copyFile(statePath, BACKUP)` (silently skipped when
the primary does not exist yet), then write the new state to the primary. -/
def saveState (fs : FS) (st : InstallationState) : FS :=
  { primary := some st,
    backup := match fs.primary with
      | some prev => some prev
      | none => fs.backup }

/-- `initializeState` followed by its `saveState()` call: the state is built
fresh and persisted once. -/
def initializeAndSave (fs : FS) (pairs : List (Nat × String)) : InstallationState × FS :=
  let st := initializeState pairs
  (st, saveState fs st)

/-- `clearState()`: remove both the primary and the backup. -/
def clearState (_fs : FS) : FS :=
  { primary := none, backup := none }

/-- Observable behaviour of one `Operation` during one invocation of each of
its methods: the value of `isAlreadyDone()`, whether `validate()` returned a
successful truthy result (`validation.success && validation.value`) and its
`error` field, likewise for `execute()`, and whether `rollback()` throws. -/
structure OpBehavior where
  description : String
  alreadyDone : Bool
  validateOk : Bool
  validateErr : Option String := none
  execOk : Bool
  execErr : Option String := none
  rollbackThrows : Bool := false
deriving DecidableEq, Repr

/-- Trace events: one per operation-method invocation and per ledger
transition, identified by the step id (transaction manager) or the position
in the operation list (composite executor). -/
inductive TEvent
  | checkDone (i : Nat)
  | validateOp (i : Nat)
  | execOp (i : Nat)
  | rollbackOp (i : Nat)
  | ledgerStart (i : Nat)
  | ledgerSkip (i : Nat)
  | ledgerFail (i : Nat) (err : String)
  | ledgerComplete (i : Nat)
deriving DecidableEq, Repr

/-- The id an event concerns. -/
def TEvent.evId : TEvent → Nat
  | checkDone i => i
  | validateOp i => i
  | execOp i => i
  | rollbackOp i => i
  | ledgerStart i => i
  | ledgerSkip i => i
  | ledgerFail i _ => i
  | ledgerComplete i => i

/-- Is this an `execute()` invocation? -/
def TEvent.isExec : TEvent → Bool
  | execOp _ => true
  | _ => false

/-- Is this a `rollback()` invocation? -/
def TEvent.isRollback : TEvent → Bool
  | rollbackOp _ => true
  | _ => false

/-- Is this a ledger transition (a `startStep`/`skipStep`/`failStep`/
`completeStep` call, each of which persists the state)? -/
def TEvent.isLedger : TEvent → Bool
  | ledgerStart _ => true
  | ledgerSkip _ => true
  | ledgerFail _ _ => true
  | ledgerComplete _ => true
  | _ => false

/-- Is this a `failStep` ledger transition? -/
def TEvent.isLedgerFail : TEvent → Bool
  | ledgerFail _ _ => true
  | _ => false

/-- `TransactionResult` from `transaction-manager.ts`. -/
structure TransactionResult where
  success : Bool
  completedSteps : Nat
  totalSteps : Nat
  error : Option String := none
  canResume : Bool
deriving DecidableEq, Repr

/-- The `TransactionManager`'s state: the in-memory ledger state (null until
`initialize()`/`loadExisting()`), the on-disk files, and the id↔Operation map. -/
structure TransactionManager where
  ledger : Option InstallationState
  fs : FS
  ops : List (Nat × OpBehavior)
deriving DecidableEq, Repr

/-- `this.operations.get(step.id)`. -/
def lookupOp (ops : List (Nat × OpBehavior)) (i : Nat) : Option OpBehavior :=
  (ops.find? (fun p => p.1 = i)).map (fun p => p.2)

/-- JS template interpolation of a possibly-undefined string. -/
def jsStr : Option String → String
  | some s => s
  | none => "undefined"

/-- The body of the `for (const step of pendingSteps)` loop of
`TransactionManager.execute()`. For each pending step: look up its operation
(a missing one throws without any ledger transition); `startStep`;
`isAlreadyDone()` (on true, `skipStep` and continue); `validate()` (on
failure, `failStep` and throw); `execute()` (on failure, `failStep` and
throw); `completeStep` and record the operation as executed. Every ledger
transition is immediately persisted by `saveState`. Returns the final state,
files, trace, executed list, and the thrown message if any. -/
def execLoop (ops : List (Nat × OpBehavior)) :
    List Step → InstallationState → FS → List TEvent → List (Nat × OpBehavior) →
    InstallationState × FS × List TEvent × List (Nat × OpBehavior) × Option String
  | [], st, fs, tr, ex => (st, fs, tr, ex, none)
  | step :: rest, st, fs, tr, ex =>
    match lookupOp ops step.id with
    | none => (st, fs, tr, ex, some ("Operation not found for step: " ++ toString step.id))
    | some op =>
      let st1 := startStep st step.id
      let fs1 := saveState fs st1
      let tr1 := tr ++ [TEvent.ledgerStart step.id, TEvent.checkDone step.id]
      if op.alreadyDone then
        let st2 := skipStep st1 step.id
        execLoop ops rest st2 (saveState fs1 st2) (tr1 ++ [TEvent.ledgerSkip step.id]) ex
      else
        let tr2 := tr1 ++ [TEvent.validateOp step.id]
        if op.validateOk then
          let tr3 := tr2 ++ [TEvent.execOp step.id]
          if op.execOk then
            let st2 := completeStep st1 step.id
            execLoop ops rest st2 (saveState fs1 st2)
              (tr3 ++ [TEvent.ledgerComplete step.id]) (ex ++ [(step.id, op)])
          else
            let errMsg := op.execErr.getD "Operation failed"
            let st2 := failStep st1 step.id errMsg
            (st2, saveState fs1 st2, tr3 ++ [TEvent.ledgerFail step.id errMsg], ex,
             some (step.description ++ " failed: " ++ errMsg))
        else
          let errMsg := op.validateErr.getD "Prerequisites not met"
          let st2 := failStep st1 step.id errMsg
          (st2, saveState fs1 st2, tr2 ++ [TEvent.ledgerFail step.id errMsg], ex,
           some (step.description ++ " validation failed: " ++ errMsg))

/-- The rollback loop shared by `TransactionManager.execute()`'s catch block
and `CompositeOperation.execute()`'s catch block: each executed operation's
`rollback()` is invoked; a throwing rollback is caught, logged, and the loop
continues to the next candidate. The input list is already reversed. -/
def rollbackPhase : List (Nat × OpBehavior) → List TEvent
  | [] => []
  | (i, op) :: rest =>
    if op.rollbackThrows then
      TEvent.rollbackOp i :: rollbackPhase rest
    else
      TEvent.rollbackOp i :: rollbackPhase rest

/-- The outcome of one `execute()`/`resume()` call: the manager afterwards,
the forward-phase trace, the rollback-phase trace, and the returned
`TransactionResult` (`Except.error` models a thrown exception). -/
structure ExecOutcome where
  tm : TransactionManager
  fwd : List TEvent
  rb : List TEvent
  result : Except String TransactionResult

/-- `TransactionManager.execute()`: throws when no state is loaded; otherwise
runs the pending-step loop, and on a thrown failure rolls back the operations
executed in this call in reverse order (best effort) and returns a failure
result carrying the original error, `completedSteps` counted from the ledger,
and `canResume` from the ledger. On full success returns
`{success: true, completedSteps: totalSteps, canResume: false}`. -/
def txExecute (tm : TransactionManager) : ExecOutcome :=
  match tm.ledger with
  | none =>
    ⟨tm, [], [], Except.error "Transaction not initialized. Call initialize() or loadExisting() first."⟩
  | some st =>
    match execLoop tm.ops (getPendingSteps st) st tm.fs [] [] with
    | (st', fs', fwd, _, none) =>
      ⟨{ tm with ledger := some st', fs := fs' }, fwd, [],
       Except.ok { success := true, completedSteps := st.totalSteps,
                   totalSteps := st.totalSteps, canResume := false }⟩
    | (st', fs', fwd, ex, some errMsg) =>
      ⟨{ tm with ledger := some st', fs := fs' }, fwd, rollbackPhase ex.reverse,
       Except.ok { success := false, completedSteps := (getCompletedSteps st').length,
                   totalSteps := st.totalSteps, error := some errMsg,
                   canResume := canResume (some st') }⟩

/-- `TransactionManager.loadExisting()`: `loadState()` sets the in-memory
state when the file exists (and leaves it untouched when it does not), and
the method reports whether a state was found. -/
def loadExisting (tm : TransactionManager) : TransactionManager × Bool :=
  match tm.fs.primary with
  | none => (tm, false)
  | some st => ({ tm with ledger := some st }, true)

/-- `TransactionManager.resume()`: `loadState()` (throwing when no file
exists), then the `canResume()` guard (throwing when it fails), then
`execute()`. -/
def txResume (tm : TransactionManager) : ExecOutcome :=
  match tm.fs.primary with
  | none => ⟨tm, [], [], Except.error "No existing transaction to resume"⟩
  | some st =>
    let tm1 := { tm with ledger := some st }
    if canResume (some st) then txExecute tm1
    else ⟨tm1, [], [], Except.error "Transaction cannot be resumed (either completed or no progress made)"⟩

/-- `TransactionManager.initialize(operations, options)`: generate one step
per operation (order preserved, ids supplied here in place of the
time/random-generated unique strings), store the id↔Operation map, and create
and persist the fresh state. -/
def txInitialize (tm : TransactionManager) (opsIds : List (Nat × OpBehavior)) : TransactionManager :=
  let st := initializeState (opsIds.map (fun p => (p.1, p.2.description)))
  { ledger := some st, fs := saveState tm.fs st, ops := opsIds }

/-- `TransactionManager.clear()`: delete both persisted copies and the
operation map. -/
def txClear (tm : TransactionManager) : TransactionManager :=
  { ledger := none, fs := clearState tm.fs, ops := [] }

/-- `TransactionManager.getProgress()`: delegates to the ledger; the state
manager returns 0 when no state is loaded. -/
def txGetProgress (tm : TransactionManager) : Nat :=
  match tm.ledger with
  | none => 0
  | some st => getProgress st

/-- The `for (const op of this.operations)` loop of
`CompositeOperation.execute()`: for the operation at position `i`:
`isAlreadyDone()` (on true, skip and continue); `validate()` (on a falsy
result, throw); `execute()` (on failure, throw); record as executed. -/
def compositeLoop :
    Nat → List OpBehavior → List TEvent → List (Nat × OpBehavior) →
    List TEvent × List (Nat × OpBehavior) × Option String
  | _, [], tr, ex => (tr, ex, none)
  | i, op :: rest, tr, ex =>
    let tr1 := tr ++ [TEvent.checkDone i]
    if op.alreadyDone then
      compositeLoop (i + 1) rest tr1 ex
    else
      let tr2 := tr1 ++ [TEvent.validateOp i]
      if op.validateOk then
        let tr3 := tr2 ++ [TEvent.execOp i]
        if op.execOk then
          compositeLoop (i + 1) rest tr3 (ex ++ [(i, op)])
        else
          (tr3, ex, some (op.description ++ " failed: " ++ jsStr op.execErr))
      else
        (tr2, ex,
         some ("Validation failed for " ++ op.description ++ ": "
               ++ op.validateErr.getD "Prerequisites not met"))

/-- The result type of `CompositeOperation.execute()` as observed here. -/
structure OperationOutcome where
  success : Bool
  error : Option String := none
deriving DecidableEq, Repr

/-- `CompositeOperation.execute()`: run the loop; on a thrown failure, roll
back the executed operations in reverse order (each rollback error caught and
logged) and return an error result carrying the original message. -/
def compositeExec (ops : List OpBehavior) : List TEvent × OperationOutcome :=
  match compositeLoop 0 ops [] [] with
  | (tr, _, none) => (tr, { success := true })
  | (tr, ex, some errMsg) =>
    (tr ++ rollbackPhase ex.reverse, { success := false, error := some errMsg })

/-- A `CompositeOperation` instance: its description and its stored
`operations` array (position-tagged), which `rollback()` mutates. -/
structure CompositeOperation where
  description : String
  operations : List (Nat × OpBehavior)
deriving DecidableEq, Repr

/-- The rollback loop of `CompositeOperation.rollback()`: no try/catch, so a
throwing rollback aborts the loop there. -/
def rollbackSeq : List (Nat × OpBehavior) → List TEvent
  | [] => []
  | (i, op) :: rest =>
    if op.rollbackThrows then [TEvent.rollbackOp i]
    else TEvent.rollbackOp i :: rollbackSeq rest

/-- `CompositeOperation.rollback()`: `this.operations.reverse()` reverses the
stored array in place and iterates over it, awaiting each `rollback()`. The
instance afterwards holds the reversed array. -/
def compositeRollback (c : CompositeOperation) : CompositeOperation × List TEvent :=
  let revd := c.operations.reverse
  ({ c with operations := revd }, rollbackSeq revd)

/-! ### Helper lemmas about the ledger primitives -/

/-- An operation behaviour that takes the plain success path of the loop:
not already done, validation succeeds, execution succeeds. -/
def Succeeds (op : OpBehavior) : Prop :=
  op.alreadyDone = false ∧ op.validateOk = true ∧ op.execOk = true

/-- An operation behaviour whose `execute()` fails after passing the
idempotency check and validation. -/
def FailsExec (op : OpBehavior) : Prop :=
  op.alreadyDone = false ∧ op.validateOk = true ∧ op.execOk = false

instance (op : OpBehavior) : Decidable (Succeeds op) := by
  unfold Succeeds; infer_instance

instance (op : OpBehavior) : Decidable (FailsExec op) := by
  unfold FailsExec; infer_instance

/-- A call in a sequence of `execute()`/`resume()` invocations. -/
inductive TxCall
  | execCall
  | resumeCall
deriving DecidableEq, Repr

/-- Apply one call: the manager afterwards and the call's full event trace
(forward phase, then rollback phase). -/
def applyCall (tm : TransactionManager) : TxCall → TransactionManager × List TEvent
  | TxCall.execCall => ((txExecute tm).tm, (txExecute tm).fwd ++ (txExecute tm).rb)
  | TxCall.resumeCall => ((txResume tm).tm, (txResume tm).fwd ++ (txResume tm).rb)

/-- Run a sequence of calls, concatenating their traces. -/
def runCalls : TransactionManager → List TxCall → TransactionManager × List TEvent
  | tm, [] => (tm, [])
  | tm, c :: cs =>
    ((runCalls (applyCall tm c).1 cs).1,
     (applyCall tm c).2 ++ (runCalls (applyCall tm c).1 cs).2)

/-- The status the manager's state manager reports for step id `j`. -/
def txFindStatus (tm : TransactionManager) (j : Nat) : Option Status :=
  match tm.ledger with
  | none => none
  | some st => findStatus st j

/-- The events of one pending step on the plain success path:
`startStep`, `isAlreadyDone()`, `validate()`, `execute()`, `completeStep`. -/
def goodTrace : List Step → List TEvent
  | [] => []
  | s :: rest =>
    TEvent.ledgerStart s.id :: TEvent.checkDone s.id :: TEvent.validateOp s.id ::
      TEvent.execOp s.id :: TEvent.ledgerComplete s.id :: goodTrace rest

/-- No operation of the list throws from its `rollback()`. -/
def NoRollbackThrows (l : List (Nat × OpBehavior)) : Prop :=
  ∀ p ∈ l, p.2.rollbackThrows = false

instance (l : List (Nat × OpBehavior)) : Decidable (NoRollbackThrows l) := by
  unfold NoRollbackThrows; infer_instance

/-- The id↔Operation map holds a plain-success operation for the given id. -/
def goodFor (ops : List (Nat × OpBehavior)) (i : Nat) : Prop :=
  match lookupOp ops i with
  | none => False
  | some op => Succeeds op

instance (ops : List (Nat × OpBehavior)) (i : Nat) : Decidable (goodFor ops i) := by
  unfold goodFor
  cases lookupOp ops i
  · exact inferInstanceAs (Decidable False)
  · unfold Succeeds; infer_instance

/-- The id↔Operation map holds a plain-success operation for every pending
step of the state. -/
def CoversPending (ops : List (Nat × OpBehavior)) (st : InstallationState) : Prop :=
  ∀ s ∈ getPendingSteps st, goodFor ops s.id

instance (ops : List (Nat × OpBehavior)) (st : InstallationState) :
    Decidable (CoversPending ops st) := by
  unfold CoversPending; infer_instance

/-- The loaded ledger state, if any, has distinct step ids (the data model
declares step ids unique within a transaction). -/
def LedgerIdsNodup (tm : TransactionManager) : Prop :=
  match tm.ledger with
  | none => True
  | some st => (st.steps.map Step.id).Nodup

instance (tm : TransactionManager) : Decidable (LedgerIdsNodup tm) := by
  unfold LedgerIdsNodup
  cases tm.ledger
  · exact inferInstanceAs (Decidable True)
  · exact inferInstanceAs (Decidable _)

/-- A concrete operation behaviour that succeeds on the plain path. -/
def opOk (d : String) : OpBehavior :=
  { description := d, alreadyDone := false, validateOk := true, execOk := true }

/-- A concrete operation behaviour whose `execute()` fails with a message. -/
def opExecFails (d msg : String) : OpBehavior :=
  { description := d, alreadyDone := false, validateOk := true, execOk := false,
    execErr := some msg }

/-- A concrete succeeding operation whose `rollback()` throws. -/
def opOkRollbackThrows (d : String) : OpBehavior :=
  { description := d, alreadyDone := false, validateOk := true, execOk := true,
    rollbackThrows := true }

/-- A rehydrated three-step transaction state: `A` completed, `B` failed
(with a recorded error), `C` pending. -/
def resumeScenarioState : InstallationState :=
  { steps := [{ id := 0, description := "A", status := Status.completed },
              { id := 1, description := "B", status := Status.failed, error := some "eB" },
              { id := 2, description := "C", status := Status.pending }],
    currentStep := 1,
    totalSteps := 3 }

/-- A fresh three-step transaction whose third operation's `execute()` fails. -/
def failScenarioOps : List (Nat × OpBehavior) :=
  [(0, opOk "A"), (1, opOk "B"), (2, opExecFails "C" "boom")]

/-- The fresh all-pending state of that transaction. -/
def failScenarioState : InstallationState :=
  initializeState [(0, "A"), (1, "B"), (2, "C")]

/-- The initialized manager of that transaction. -/
def failScenarioTm : TransactionManager :=
  { ledger := some failScenarioState,
    fs := { primary := some failScenarioState, backup := none },
    ops := failScenarioOps }

/-- A state as left by a crash between `startStep` and the step's completion:
`B` is stuck `in_progress`. -/
def crashScenarioState : InstallationState :=
  { steps := [{ id := 0, description := "A", status := Status.completed },
              { id := 1, description := "B", status := Status.inProgress },
              { id := 2, description := "C", status := Status.pending }],
    currentStep := 1,
    totalSteps := 3 }

theorem updateFirst_map_id (f : Step → Step) (hf : ∀ s, (f s).id = s.id) :
    ∀ (l : List Step) (i : Nat), (updateFirst f l i).map Step.id = l.map Step.id := by
  intro l i
  induction l with
  | nil => rfl
  | cons a tl ih =>
    by_cases h : a.id = i
    · simp [updateFirst, h, hf]
    · simp [updateFirst, h, ih]

theorem find?_updateFirst_ne (f : Step → Step) (hf : ∀ s, (f s).id = s.id)
    (l : List Step) {i j : Nat} (hij : j ≠ i) :
    (updateFirst f l i).find? (fun s => s.id = j) = l.find? (fun s => s.id = j) := by
  induction l with
  | nil => rfl
  | cons a tl ih =>
    by_cases h : a.id = i
    · have hfa : ¬ (f a).id = j := by
        rw [hf a, h]
        exact fun hh => hij hh.symm
      have haj : ¬ a.id = j := by
        rw [h]
        exact fun hh => hij hh.symm
      rw [updateFirst, if_pos h, List.find?_cons_of_neg tl (by simpa using hfa),
          List.find?_cons_of_neg tl (by simpa using haj)]
    · rw [updateFirst, if_neg h]
      by_cases hj : a.id = j
      · rw [List.find?_cons_of_pos _ (by simpa using hj),
            List.find?_cons_of_pos tl (by simpa using hj)]
      · rw [List.find?_cons_of_neg _ (by simpa using hj),
            List.find?_cons_of_neg tl (by simpa using hj), ih]

theorem find?_updateFirst_self (f : Step → Step) (hf : ∀ s, (f s).id = s.id)
    (l : List Step) {i : Nat} {s0 : Step}
    (h : l.find? (fun s => s.id = i) = some s0) :
    (updateFirst f l i).find? (fun s => s.id = i) = some (f s0) := by
  induction l with
  | nil => simp [List.find?] at h
  | cons a tl ih =>
    by_cases ha : a.id = i
    · rw [List.find?_cons_of_pos tl (by simpa using ha)] at h
      injection h with h
      subst h
      rw [updateFirst, if_pos ha]
      exact List.find?_cons_of_pos tl (by simp [hf a, ha])
    · rw [List.find?_cons_of_neg tl (by simpa using ha)] at h
      rw [updateFirst, if_neg ha, List.find?_cons_of_neg _ (by simpa using ha)]
      exact ih h

theorem count_updateFirst_ge (f : Step → Step) (l : List Step) {i : Nat} {s0 : Step}
    (h : l.find? (fun s => s.id = i) = some s0) (hs : ¬ s0.status = Status.completed) :
    (l.filter (fun s => s.status = Status.completed)).length ≤
      ((updateFirst f l i).filter (fun s => s.status = Status.completed)).length := by
  induction l with
  | nil => simp [List.find?] at h
  | cons a tl ih =>
    by_cases ha : a.id = i
    · rw [List.find?_cons_of_pos tl (by simpa using ha)] at h
      injection h with h
      subst h
      rw [updateFirst, if_pos ha, List.filter_cons, List.filter_cons]
      by_cases hfc : (f a).status = Status.completed
      · simp [hs, hfc]
      · simp [hs, hfc]
    · rw [List.find?_cons_of_neg tl (by simpa using ha)] at h
      rw [updateFirst, if_neg ha]
      by_cases hac : a.status = Status.completed
      · simpa [List.filter_cons, hac] using ih h
      · simpa [List.filter_cons, hac] using ih h

theorem find?_self_of_nodup {l : List Step} {s : Step}
    (hnd : (l.map Step.id).Nodup) (hs : s ∈ l) :
    l.find? (fun x => x.id = s.id) = some s := by
  induction l with
  | nil => cases hs
  | cons a tl ih =>
    rw [List.map_cons, List.nodup_cons] at hnd
    rcases List.mem_cons.mp hs with h | h
    · subst h
      exact List.find?_cons_of_pos tl (by simp)
    · have hne : ¬ a.id = s.id := by
        intro hid
        exact hnd.1 (hid ▸ List.mem_map_of_mem Step.id h)
      rw [List.find?_cons_of_neg tl (by simpa using hne)]
      exact ih hnd.2 h

theorem getProgress_mono {st st' : InstallationState}
    (ht : st'.totalSteps = st.totalSteps)
    (hc : (getCompletedSteps st).length ≤ (getCompletedSteps st').length) :
    getProgress st ≤ getProgress st' := by
  unfold getProgress
  rw [ht]
  by_cases h0 : st.totalSteps = 0
  · simp [h0]
  · simp only [if_neg h0]
    apply Nat.div_le_div_right
    omega

theorem setInProgress_id (s : Step) : (setInProgress s).id = s.id := rfl

theorem setCompleted_id (s : Step) : (setCompleted s).id = s.id := rfl

theorem setFailed_id (err : String) (s : Step) : (setFailed err s).id = s.id := rfl

theorem setSkipped_id (s : Step) : (setSkipped s).id = s.id := rfl

/-- Ids are unchanged by a start-then-second-transition pair on one step. -/
theorem two_updates_map_id (g1 g2 : Step → Step) (hg1 : ∀ x, (g1 x).id = x.id)
    (hg2 : ∀ x, (g2 x).id = x.id) (l : List Step) (i : Nat) :
    (updateFirst g2 (updateFirst g1 l i) i).map Step.id = l.map Step.id := by
  rw [updateFirst_map_id g2 hg2, updateFirst_map_id g1 hg1]

/-- A step with a different id is untouched by such a pair. -/
theorem two_updates_find?_ne (g1 g2 : Step → Step) (hg1 : ∀ x, (g1 x).id = x.id)
    (hg2 : ∀ x, (g2 x).id = x.id) (l : List Step) {i j : Nat} (hij : j ≠ i) :
    (updateFirst g2 (updateFirst g1 l i) i).find? (fun s => s.id = j) =
      l.find? (fun s => s.id = j) := by
  rw [find?_updateFirst_ne g2 hg2 _ hij, find?_updateFirst_ne g1 hg1 _ hij]

/-- The targeted step after such a pair. -/
theorem two_updates_find?_self (g1 g2 : Step → Step) (hg1 : ∀ x, (g1 x).id = x.id)
    (hg2 : ∀ x, (g2 x).id = x.id) (l : List Step) {i : Nat} {s0 : Step}
    (h : l.find? (fun s => s.id = i) = some s0) :
    (updateFirst g2 (updateFirst g1 l i) i).find? (fun s => s.id = i) = some (g2 (g1 s0)) :=
  find?_updateFirst_self g2 hg2 _ (find?_updateFirst_self g1 hg1 _ h)

/-- The completed count does not decrease under such a pair when the target
was not completed before and is not completed after the first update. -/
theorem two_updates_count_ge (g1 g2 : Step → Step) (hg1 : ∀ x, (g1 x).id = x.id)
    (l : List Step) {i : Nat} {s0 : Step}
    (h : l.find? (fun s => s.id = i) = some s0)
    (h1 : ¬ s0.status = Status.completed) (h2 : ¬ (g1 s0).status = Status.completed) :
    (l.filter (fun s => s.status = Status.completed)).length ≤
      ((updateFirst g2 (updateFirst g1 l i) i).filter (fun s => s.status = Status.completed)).length :=
  le_trans (count_updateFirst_ge g1 l h h1)
    (count_updateFirst_ge g2 _ (find?_updateFirst_self g1 hg1 _ h) h2)

/-- One pass of the pending-step loop: step ids and the step count are
preserved, the completed count never decreases, the persisted primary always
holds the current state, every operation recorded as executed has its step
`completed` in the final state, and every step outside the processed pending
list keeps its status. Hypotheses: the pending ids are distinct, each pending
step is currently found with a non-completed status, the primary is in sync,
and the already-executed entries are completed steps outside the pending list. -/
theorem execLoop_state_spec (ops : List (Nat × OpBehavior)) :
    ∀ (pend : List Step) (st : InstallationState) (fs : FS) (tr : List TEvent)
      (ex : List (Nat × OpBehavior)) (st' : InstallationState) (fs' : FS)
      (tr' : List TEvent) (ex' : List (Nat × OpBehavior)) (err : Option String),
      execLoop ops pend st fs tr ex = (st', fs', tr', ex', err) →
      (pend.map Step.id).Nodup →
      (∀ s ∈ pend, ∃ s0, findStep st s.id = some s0 ∧ ¬ s0.status = Status.completed) →
      fs.primary = some st →
      (∀ p ∈ ex, findStatus st p.1 = some Status.completed) →
      (∀ p ∈ ex, p.1 ∉ pend.map Step.id) →
      st'.steps.map Step.id = st.steps.map Step.id ∧
      st'.totalSteps = st.totalSteps ∧
      (getCompletedSteps st).length ≤ (getCompletedSteps st').length ∧
      fs'.primary = some st' ∧
      (∀ p ∈ ex', findStatus st' p.1 = some Status.completed) ∧
      (∀ j, j ∉ pend.map Step.id → findStatus st' j = findStatus st j) := by
  intro pend
  induction pend with
  | nil =>
    intro st fs tr ex st' fs' tr' ex' err heq _ _ hsync hexC _
    simp only [execLoop, Prod.mk.injEq] at heq
    obtain ⟨rfl, rfl, rfl, rfl, rfl⟩ := heq
    exact ⟨rfl, rfl, le_refl _, hsync, hexC, fun j _ => rfl⟩
  | cons s rest ih =>
    intro st fs tr ex st' fs' tr' ex' err heq hnd hfound hsync hexC hexD
    rw [List.map_cons, List.nodup_cons] at hnd
    obtain ⟨hsid, hnd'⟩ := hnd
    obtain ⟨s0, hfind, hs0c⟩ := hfound s (List.mem_cons_self s rest)
    simp only [execLoop] at heq
    split at heq
    · -- lookupOp returned none: the loop stops without touching the state
      simp only [Prod.mk.injEq] at heq
      obtain ⟨rfl, rfl, rfl, rfl, rfl⟩ := heq
      exact ⟨rfl, rfl, le_refl _, hsync, hexC, fun j _ => rfl⟩
    · -- lookupOp returned some op
      rename_i op hop
      -- names for the two possible second transitions of this iteration
      have hneStep : ∀ (g2 : Step → Step), (∀ x, (g2 x).id = x.id) →
          ∀ j, j ≠ s.id →
            (updateFirst g2 (updateFirst setInProgress st.steps s.id) s.id).find?
              (fun x => x.id = j) = st.steps.find? (fun x => x.id = j) :=
        fun g2 hg2 j hj => two_updates_find?_ne setInProgress g2 setInProgress_id hg2 _ hj
      have hfoundRest : ∀ (g2 : Step → Step), (∀ x, (g2 x).id = x.id) →
          ∀ x ∈ rest, ∃ x0,
            (updateFirst g2 (updateFirst setInProgress st.steps s.id) s.id).find?
              (fun y => y.id = x.id) = some x0 ∧ ¬ x0.status = Status.completed := by
        intro g2 hg2 x hx
        obtain ⟨x0, hx0, hx0c⟩ := hfound x (List.mem_cons_of_mem s hx)
        refine ⟨x0, ?_, hx0c⟩
        have hxne : x.id ≠ s.id := fun hh => hsid (hh ▸ List.mem_map_of_mem Step.id hx)
        rw [hneStep g2 hg2 x.id hxne]
        exact hx0
      have hexCRest : ∀ (g2 : Step → Step), (∀ x, (g2 x).id = x.id) →
          ∀ p ∈ ex,
            ((updateFirst g2 (updateFirst setInProgress st.steps s.id) s.id).find?
              (fun y => y.id = p.1)).map Step.status = some Status.completed := by
        intro g2 hg2 p hp
        have hpne : p.1 ≠ s.id := fun hh =>
          (hexD p hp) (by rw [List.map_cons]; exact hh ▸ List.mem_cons_self _ _)
        rw [hneStep g2 hg2 p.1 hpne]
        exact hexC p hp
      have hcntStep : ∀ g2 : Step → Step,
          (st.steps.filter (fun x => x.status = Status.completed)).length ≤
            ((updateFirst g2 (updateFirst setInProgress st.steps s.id) s.id).filter
              (fun x => x.status = Status.completed)).length :=
        fun g2 => two_updates_count_ge setInProgress g2 setInProgress_id _ hfind hs0c
          (by simp [setInProgress])
      have hidsStep : ∀ (g2 : Step → Step), (∀ x, (g2 x).id = x.id) →
          (updateFirst g2 (updateFirst setInProgress st.steps s.id) s.id).map Step.id =
            st.steps.map Step.id :=
        fun g2 hg2 => two_updates_map_id setInProgress g2 setInProgress_id hg2 _ _
      split at heq
      · -- isAlreadyDone: skipStep, recurse
        have hrec := ih _ _ _ _ _ _ _ _ _ heq hnd'
          (hfoundRest setSkipped setSkipped_id)
          rfl
          (hexCRest setSkipped setSkipped_id)
          (fun p hp hmem => (hexD p hp) (by
            rw [List.map_cons]; exact List.mem_cons_of_mem _ hmem))
        obtain ⟨hids, htot, hcnt, hfsp, hexC', hstat⟩ := hrec
        refine ⟨?_, htot, le_trans (hcntStep setSkipped) hcnt, hfsp, hexC', ?_⟩
        · rw [hids]; exact hidsStep setSkipped setSkipped_id
        · intro j hj
          have hjs : j ≠ s.id := fun hh =>
            hj (by rw [List.map_cons]; exact hh ▸ List.mem_cons_self _ _)
          have hjr : j ∉ rest.map Step.id := fun hh =>
            hj (by rw [List.map_cons]; exact List.mem_cons_of_mem _ hh)
          rw [hstat j hjr]
          show ((updateFirst setSkipped (updateFirst setInProgress st.steps s.id) s.id).find?
            (fun y => y.id = j)).map Step.status = _
          rw [hneStep setSkipped setSkipped_id j hjs]
          rfl
      · -- not already done
        split at heq
        · -- validation passed
          split at heq
          · -- execution succeeded: completeStep, recurse with the op appended
            have hfind2 : (updateFirst setCompleted
                (updateFirst setInProgress st.steps s.id) s.id).find?
                (fun y => y.id = s.id) = some (setCompleted (setInProgress s0)) :=
              two_updates_find?_self setInProgress setCompleted setInProgress_id
                setCompleted_id _ hfind
            have hrec := ih _ _ _ _ _ _ _ _ _ heq hnd'
              (hfoundRest setCompleted setCompleted_id)
              rfl
              (fun p hp => by
                rcases List.mem_append.mp hp with hp' | hp'
                · exact hexCRest setCompleted setCompleted_id p hp'
                · have hps : p = (s.id, op) := by simpa using hp'
                  subst hps
                  show ((updateFirst setCompleted
                    (updateFirst setInProgress st.steps s.id) s.id).find?
                    (fun y => y.id = s.id)).map Step.status = some Status.completed
                  rw [hfind2]
                  rfl)
              (fun p hp => by
                rcases List.mem_append.mp hp with hp' | hp'
                · exact fun hmem => (hexD p hp') (by
                    rw [List.map_cons]; exact List.mem_cons_of_mem _ hmem)
                · have hps : p = (s.id, op) := by simpa using hp'
                  subst hps
                  exact hsid)
            obtain ⟨hids, htot, hcnt, hfsp, hexC', hstat⟩ := hrec
            refine ⟨?_, htot, le_trans (hcntStep setCompleted) hcnt, hfsp, hexC', ?_⟩
            · rw [hids]; exact hidsStep setCompleted setCompleted_id
            · intro j hj
              have hjs : j ≠ s.id := fun hh =>
                hj (by rw [List.map_cons]; exact hh ▸ List.mem_cons_self _ _)
              have hjr : j ∉ rest.map Step.id := fun hh =>
                hj (by rw [List.map_cons]; exact List.mem_cons_of_mem _ hh)
              rw [hstat j hjr]
              show ((updateFirst setCompleted
                (updateFirst setInProgress st.steps s.id) s.id).find?
                (fun y => y.id = j)).map Step.status = _
              rw [hneStep setCompleted setCompleted_id j hjs]
              rfl
          · -- execution failed: failStep, terminal
            simp only [Prod.mk.injEq] at heq
            obtain ⟨rfl, rfl, rfl, rfl, rfl⟩ := heq
            refine ⟨hidsStep _ (setFailed_id _), rfl, hcntStep _, rfl, ?_, ?_⟩
            · intro p hp
              exact hexCRest _ (setFailed_id _) p hp
            · intro j hj
              have hjs : j ≠ s.id := fun hh =>
                hj (by rw [List.map_cons]; exact hh ▸ List.mem_cons_self _ _)
              show ((updateFirst _ (updateFirst setInProgress st.steps s.id) s.id).find?
                (fun y => y.id = j)).map Step.status = _
              rw [hneStep _ (setFailed_id _) j hjs]
              rfl
        · -- validation failed: failStep, terminal
          simp only [Prod.mk.injEq] at heq
          obtain ⟨rfl, rfl, rfl, rfl, rfl⟩ := heq
          refine ⟨hidsStep _ (setFailed_id _), rfl, hcntStep _, rfl, ?_, ?_⟩
          · intro p hp
            exact hexCRest _ (setFailed_id _) p hp
          · intro j hj
            have hjs : j ≠ s.id := fun hh =>
              hj (by rw [List.map_cons]; exact hh ▸ List.mem_cons_self _ _)
            show ((updateFirst _ (updateFirst setInProgress st.steps s.id) s.id).find?
              (fun y => y.id = j)).map Step.status = _
            rw [hneStep _ (setFailed_id _) j hjs]
            rfl

/-- One pass of the pending-step loop, trace side: the trace is extended with
events that concern only pending ids, the executed list is extended with
entries whose ids are pending ids, at most one of the new events is a
`failStep`, and none is when the loop finishes without a thrown error. -/
theorem execLoop_trace_spec (ops : List (Nat × OpBehavior)) :
    ∀ (pend : List Step) (st : InstallationState) (fs : FS) (tr : List TEvent)
      (ex : List (Nat × OpBehavior)) (st' : InstallationState) (fs' : FS)
      (tr' : List TEvent) (ex' : List (Nat × OpBehavior)) (err : Option String),
      execLoop ops pend st fs tr ex = (st', fs', tr', ex', err) →
      (∃ d, tr' = tr ++ d ∧ (∀ e ∈ d, e.evId ∈ pend.map Step.id) ∧
        (d.filter TEvent.isLedgerFail).length ≤ 1 ∧
        (err = none → (d.filter TEvent.isLedgerFail).length = 0)) ∧
      (∃ d2, ex' = ex ++ d2 ∧ ∀ p ∈ d2, p.1 ∈ pend.map Step.id) := by
  intro pend
  induction pend with
  | nil =>
    intro st fs tr ex st' fs' tr' ex' err heq
    simp only [execLoop, Prod.mk.injEq] at heq
    obtain ⟨rfl, rfl, rfl, rfl, rfl⟩ := heq
    exact ⟨⟨[], by simp, by simp, by simp, fun _ => by simp⟩, ⟨[], by simp, by simp⟩⟩
  | cons s rest ih =>
    intro st fs tr ex st' fs' tr' ex' err heq
    simp only [execLoop] at heq
    split at heq
    · simp only [Prod.mk.injEq] at heq
      obtain ⟨rfl, rfl, rfl, rfl, rfl⟩ := heq
      exact ⟨⟨[], by simp, by simp, by simp, fun h => by cases h⟩, ⟨[], by simp, by simp⟩⟩
    · rename_i op hop
      split at heq
      · -- skipStep branch
        obtain ⟨⟨d, htr, hid, hcnt, hnone⟩, ⟨d2, hex, hid2⟩⟩ :=
          ih _ _ _ _ _ _ _ _ _ heq
        refine ⟨⟨[TEvent.ledgerStart s.id, TEvent.checkDone s.id, TEvent.ledgerSkip s.id] ++ d,
          by rw [htr]; simp, ?_, ?_, ?_⟩,
          ⟨d2, hex, fun p hp => by rw [List.map_cons]; exact List.mem_cons_of_mem _ (hid2 p hp)⟩⟩
        · intro e he
          rcases List.mem_append.mp he with he' | he'
          · have hevid : e.evId = s.id := by
              simp only [List.mem_cons, List.not_mem_nil, or_false] at he'
              rcases he' with rfl | rfl | rfl <;> rfl
            rw [List.map_cons, hevid]
            exact List.mem_cons_self _ _
          · rw [List.map_cons]
            exact List.mem_cons_of_mem _ (hid e he')
        · simpa [List.filter_append, TEvent.isLedgerFail] using hcnt
        · intro h
          simpa [List.filter_append, TEvent.isLedgerFail] using hnone h
      · split at heq
        · split at heq
          · -- full success branch
            obtain ⟨⟨d, htr, hid, hcnt, hnone⟩, ⟨d2, hex, hid2⟩⟩ :=
              ih _ _ _ _ _ _ _ _ _ heq
            refine ⟨⟨[TEvent.ledgerStart s.id, TEvent.checkDone s.id, TEvent.validateOp s.id,
              TEvent.execOp s.id, TEvent.ledgerComplete s.id] ++ d,
              by rw [htr]; simp, ?_, ?_, ?_⟩,
              ⟨(s.id, op) :: d2, by rw [hex]; simp, ?_⟩⟩
            · intro e he
              rcases List.mem_append.mp he with he' | he'
              · have hevid : e.evId = s.id := by
                  simp only [List.mem_cons, List.not_mem_nil, or_false] at he'
                  rcases he' with rfl | rfl | rfl | rfl | rfl <;> rfl
                rw [List.map_cons, hevid]
                exact List.mem_cons_self _ _
              · rw [List.map_cons]
                exact List.mem_cons_of_mem _ (hid e he')
            · simpa [List.filter_append, TEvent.isLedgerFail] using hcnt
            · intro h
              simpa [List.filter_append, TEvent.isLedgerFail] using hnone h
            · intro p hp
              rcases List.mem_cons.mp hp with h | h
              · subst h
                rw [List.map_cons]
                exact List.mem_cons_self _ _
              · rw [List.map_cons]
                exact List.mem_cons_of_mem _ (hid2 p h)
          · -- execute() failed: terminal, one failStep event
            simp only [Prod.mk.injEq] at heq
            obtain ⟨rfl, rfl, rfl, rfl, rfl⟩ := heq
            refine ⟨⟨[TEvent.ledgerStart s.id, TEvent.checkDone s.id, TEvent.validateOp s.id,
              TEvent.execOp s.id, TEvent.ledgerFail s.id (op.execErr.getD "Operation failed")],
              by simp, ?_, ?_, ?_⟩, ⟨[], by simp, by simp⟩⟩
            · intro e he
              have hevid : e.evId = s.id := by
                simp only [List.mem_cons, List.not_mem_nil, or_false] at he
                rcases he with rfl | rfl | rfl | rfl | rfl <;> rfl
              rw [List.map_cons, hevid]
              exact List.mem_cons_self _ _
            · simp [TEvent.isLedgerFail]
            · intro h
              cases h
        · -- validate() failed: terminal, one failStep event
          simp only [Prod.mk.injEq] at heq
          obtain ⟨rfl, rfl, rfl, rfl, rfl⟩ := heq
          refine ⟨⟨[TEvent.ledgerStart s.id, TEvent.checkDone s.id, TEvent.validateOp s.id,
            TEvent.ledgerFail s.id (op.validateErr.getD "Prerequisites not met")],
            by simp, ?_, ?_, ?_⟩, ⟨[], by simp, by simp⟩⟩
          · intro e he
            have hevid : e.evId = s.id := by
              simp only [List.mem_cons, List.not_mem_nil, or_false] at he
              rcases he with rfl | rfl | rfl | rfl <;> rfl
            rw [List.map_cons, hevid]
            exact List.mem_cons_self _ _
          · simp [TEvent.isLedgerFail]
          · intro h
            cases h

theorem mem_rollbackPhase {l : List (Nat × OpBehavior)} {e : TEvent} :
    e ∈ rollbackPhase l ↔ ∃ p ∈ l, e = TEvent.rollbackOp p.1 := by
  induction l with
  | nil => simp [rollbackPhase]
  | cons a tl ih =>
    obtain ⟨i, op⟩ := a
    simp [rollbackPhase, ih]

theorem rollbackPhase_isRollback {l : List (Nat × OpBehavior)} {e : TEvent}
    (he : e ∈ rollbackPhase l) : e.isRollback = true := by
  obtain ⟨p, _, rfl⟩ := mem_rollbackPhase.mp he
  rfl

theorem rollbackPhase_no_ledgerFail (l : List (Nat × OpBehavior)) :
    (rollbackPhase l).filter TEvent.isLedgerFail = [] := by
  induction l with
  | nil => rfl
  | cons a tl ih =>
    obtain ⟨i, op⟩ := a
    simp [rollbackPhase, List.filter_cons, TEvent.isLedgerFail, ih]

/-! ### Call sequences and the execute/resume specification -/

theorem mem_getPendingSteps {st : InstallationState} {x : Step} :
    x ∈ getPendingSteps st ↔
      x ∈ st.steps ∧ (x.status = Status.pending ∨ x.status = Status.failed) := by
  simp [getPendingSteps, List.mem_filter, isPendingOrFailed]

theorem pending_ids_nodup {st : InstallationState} (h : (st.steps.map Step.id).Nodup) :
    ((getPendingSteps st).map Step.id).Nodup :=
  h.sublist (List.Sublist.map Step.id (List.filter_sublist st.steps))

theorem pending_found {st : InstallationState} (h : (st.steps.map Step.id).Nodup) :
    ∀ s ∈ getPendingSteps st,
      ∃ s0, findStep st s.id = some s0 ∧ ¬ s0.status = Status.completed := by
  intro s hs
  obtain ⟨hmem, hstat⟩ := mem_getPendingSteps.mp hs
  refine ⟨s, find?_self_of_nodup h hmem, ?_⟩
  rcases hstat with h' | h' <;> simp [h']

theorem inProgress_not_pendingIds {st : InstallationState}
    (hnd : (st.steps.map Step.id).Nodup) {j : Nat}
    (h : findStatus st j = some Status.inProgress) :
    j ∉ (getPendingSteps st).map Step.id := by
  intro hj
  obtain ⟨x, hx, hxid⟩ := List.mem_map.mp hj
  obtain ⟨hmem, hstat⟩ := mem_getPendingSteps.mp hx
  have hfx : findStep st j = some x := hxid ▸ find?_self_of_nodup hnd hmem
  rw [findStatus, hfx] at h
  simp only [Option.map_some', Option.some.injEq] at h
  rcases hstat with h' | h' <;> rw [h'] at h <;> cases h

/-- `execute()` on a loaded, synchronized ledger with distinct ids: the
resulting manager is again synchronized with the ledger some state whose
ids and step count are unchanged, the completed count does not decrease,
steps outside the pending set keep their status, and every event of the call
concerns a pending id. -/
theorem txExecute_spec (tm : TransactionManager) (st : InstallationState)
    (hledger : tm.ledger = some st) (hsync : tm.fs.primary = some st)
    (hnodup : (st.steps.map Step.id).Nodup) :
    ∃ st', (txExecute tm).tm.ledger = some st' ∧
      (txExecute tm).tm.fs.primary = some st' ∧
      st'.steps.map Step.id = st.steps.map Step.id ∧
      st'.totalSteps = st.totalSteps ∧
      (getCompletedSteps st).length ≤ (getCompletedSteps st').length ∧
      (∀ j, j ∉ (getPendingSteps st).map Step.id → findStatus st' j = findStatus st j) ∧
      (∀ e ∈ (txExecute tm).fwd ++ (txExecute tm).rb,
        e.evId ∈ (getPendingSteps st).map Step.id) := by
  rcases hE : execLoop tm.ops (getPendingSteps st) st tm.fs [] [] with
    ⟨st', fs', fwd, ex, err⟩
  have hstate := execLoop_state_spec tm.ops (getPendingSteps st) st tm.fs [] []
    st' fs' fwd ex err hE (pending_ids_nodup hnodup) (pending_found hnodup)
    hsync (by intro p hp; cases hp) (by intro p hp; cases hp)
  obtain ⟨hids, htot, hcnt, hfsp, hexC, hstat⟩ := hstate
  have htrace := execLoop_trace_spec tm.ops (getPendingSteps st) st tm.fs [] []
    st' fs' fwd ex err hE
  obtain ⟨⟨d, htr, hid, _, _⟩, ⟨d2, hex2, hid2⟩⟩ := htrace
  rw [List.nil_append] at htr hex2
  subst htr
  subst hex2
  cases err with
  | none =>
    refine ⟨st', ?_, ?_, hids, htot, hcnt, hstat, ?_⟩
    · simp only [txExecute, hledger, hE]
    · simp only [txExecute, hledger, hE]
      exact hfsp
    · intro e he
      simp only [txExecute, hledger, hE, List.append_nil] at he
      exact hid e he
  | some msg =>
    refine ⟨st', ?_, ?_, hids, htot, hcnt, hstat, ?_⟩
    · simp only [txExecute, hledger, hE]
    · simp only [txExecute, hledger, hE]
      exact hfsp
    · intro e he
      simp only [txExecute, hledger, hE] at he
      rcases List.mem_append.mp he with he' | he'
      · exact hid e he'
      · obtain ⟨p, hp, rfl⟩ := mem_rollbackPhase.mp he'
        exact hid2 p (List.mem_reverse.mp hp)

/-- One `execute()`/`resume()` call preserves the sync and distinct-id
invariants, never decreases the reported progress, and neither touches nor
mentions a step whose status is `in_progress`. -/
theorem applyCall_spec (tm : TransactionManager) (c : TxCall)
    (hsync : tm.fs.primary = tm.ledger)
    (hnd : ∀ st, tm.ledger = some st → (st.steps.map Step.id).Nodup) :
    ((applyCall tm c).1.fs.primary = (applyCall tm c).1.ledger) ∧
    (∀ st, (applyCall tm c).1.ledger = some st → (st.steps.map Step.id).Nodup) ∧
    txGetProgress tm ≤ txGetProgress (applyCall tm c).1 ∧
    (∀ j, txFindStatus tm j = some Status.inProgress →
      txFindStatus (applyCall tm c).1 j = some Status.inProgress ∧
      ∀ e ∈ (applyCall tm c).2, e.evId ≠ j) := by
  have hexecCase : tm.ledger ≠ none →
      ((txExecute tm).tm.fs.primary = (txExecute tm).tm.ledger) ∧
      (∀ st, (txExecute tm).tm.ledger = some st → (st.steps.map Step.id).Nodup) ∧
      txGetProgress tm ≤ txGetProgress (txExecute tm).tm ∧
      (∀ j, txFindStatus tm j = some Status.inProgress →
        txFindStatus (txExecute tm).tm j = some Status.inProgress ∧
        ∀ e ∈ (txExecute tm).fwd ++ (txExecute tm).rb, e.evId ≠ j) := by
    intro hne
    cases hld : tm.ledger with
    | none => exact absurd hld hne
    | some st =>
      have hsync' : tm.fs.primary = some st := by rw [hsync, hld]
      have hnodup := hnd st hld
      obtain ⟨st', hledger2', hprim', hids, htot, hcnt, hstat, hev⟩ :=
        txExecute_spec tm st hld hsync' hnodup
      refine ⟨by rw [hledger2', hprim'], ?_, ?_, ?_⟩
      · intro st2 h2
        rw [hledger2'] at h2
        injection h2 with h2
        subst h2
        rw [hids]
        exact hnodup
      · simp only [txGetProgress, hld, hledger2']
        exact getProgress_mono htot hcnt
      · intro j hj
        simp only [txFindStatus, hld] at hj
        have hnp : j ∉ (getPendingSteps st).map Step.id :=
          inProgress_not_pendingIds hnodup hj
        constructor
        · simp only [txFindStatus, hledger2']
          rw [hstat j hnp]
          exact hj
        · intro e he hid
          exact hnp (hid ▸ hev e he)
  cases c with
  | execCall =>
    cases hld : tm.ledger with
    | none =>
      have hout : txExecute tm = ⟨tm, [], [],
          Except.error "Transaction not initialized. Call initialize() or loadExisting() first."⟩ := by
        rw [txExecute, hld]
      simp only [applyCall, hout]
      exact ⟨hsync, hnd, le_refl _, fun j hj => ⟨hj, fun e he => by cases he⟩⟩
    | some st =>
      obtain ⟨h1, h2, h3, h4⟩ := hexecCase (by rw [hld]; exact fun h => by cases h)
      exact ⟨h1, h2, h3, h4⟩
  | resumeCall =>
    cases hld : tm.ledger with
    | none =>
      have hprim : tm.fs.primary = none := by rw [hsync, hld]
      have hout : txResume tm = ⟨tm, [], [],
          Except.error "No existing transaction to resume"⟩ := by
        rw [txResume, hprim]
      simp only [applyCall, hout]
      exact ⟨hsync, hnd, le_refl _, fun j hj => ⟨hj, fun e he => by cases he⟩⟩
    | some st =>
      have hprim : tm.fs.primary = some st := by rw [hsync, hld]
      have htm1 : ({ tm with ledger := some st } : TransactionManager) = tm := by
        obtain ⟨l, f, o⟩ := tm
        have hl : l = some st := hld
        rw [hl]
      have hout : txResume tm =
          (if canResume (some st) then txExecute tm
           else ⟨tm, [], [],
             Except.error "Transaction cannot be resumed (either completed or no progress made)"⟩) := by
        simp only [txResume, hprim, htm1]
      by_cases hcr : canResume (some st) = true
      · rw [if_pos hcr] at hout
        simp only [applyCall, hout]
        obtain ⟨h1, h2, h3, h4⟩ := hexecCase (by rw [hld]; exact fun h => by cases h)
        exact ⟨h1, h2, h3, h4⟩
      · rw [if_neg hcr] at hout
        simp only [applyCall, hout]
        exact ⟨hsync, hnd, le_refl _, fun j hj => ⟨hj, fun e he => by cases he⟩⟩

/-- `applyCall_spec` lifted to a whole call sequence. -/
theorem runCalls_spec (calls : List TxCall) : ∀ tm : TransactionManager,
    tm.fs.primary = tm.ledger →
    (∀ st, tm.ledger = some st → (st.steps.map Step.id).Nodup) →
    ((runCalls tm calls).1.fs.primary = (runCalls tm calls).1.ledger) ∧
    (∀ st, (runCalls tm calls).1.ledger = some st → (st.steps.map Step.id).Nodup) ∧
    txGetProgress tm ≤ txGetProgress (runCalls tm calls).1 ∧
    (∀ j, txFindStatus tm j = some Status.inProgress →
      txFindStatus (runCalls tm calls).1 j = some Status.inProgress ∧
      ∀ e ∈ (runCalls tm calls).2, e.evId ≠ j) := by
  induction calls with
  | nil =>
    intro tm hsync hnd
    exact ⟨hsync, hnd, le_refl _, fun j hj => ⟨hj, fun e he => by cases he⟩⟩
  | cons c cs ih =>
    intro tm hsync hnd
    obtain ⟨h1, h2, h3, h4⟩ := applyCall_spec tm c hsync hnd
    obtain ⟨g1, g2, g3, g4⟩ := ih (applyCall tm c).1 h1 h2
    refine ⟨g1, g2, le_trans h3 g3, ?_⟩
    intro j hj
    obtain ⟨hj1, hj2⟩ := h4 j hj
    obtain ⟨hg1, hg2⟩ := g4 j hj1
    refine ⟨hg1, ?_⟩
    intro e he
    rcases List.mem_append.mp he with he' | he'
    · exact hj2 e he'
    · exact hg2 e he'

/-- Running an appended call sequence runs the two sequences one after the
other. -/
theorem runCalls_append (cs1 cs2 : List TxCall) : ∀ tm : TransactionManager,
    runCalls tm (cs1 ++ cs2) =
      ((runCalls (runCalls tm cs1).1 cs2).1,
       (runCalls tm cs1).2 ++ (runCalls (runCalls tm cs1).1 cs2).2) := by
  induction cs1 with
  | nil => intro tm; simp [runCalls]
  | cons c cs ih =>
    intro tm
    simp only [List.cons_append, runCalls, List.append_eq]
    rw [ih]
    simp [List.append_assoc]

theorem goodTrace_filter_isExec (pend : List Step) :
    (goodTrace pend).filter TEvent.isExec = pend.map (fun s => TEvent.execOp s.id) := by
  induction pend with
  | nil => rfl
  | cons s rest ih => simp [goodTrace, List.filter_cons, TEvent.isExec, ih]

/-- When every pending step has a mapped operation that takes the plain
success path, the loop completes without a thrown error and appends exactly
the success-path events of each pending step in order. -/
theorem execLoop_good (ops : List (Nat × OpBehavior)) :
    ∀ (pend : List Step) (st : InstallationState) (fs : FS) (tr : List TEvent)
      (ex : List (Nat × OpBehavior)),
      (∀ s ∈ pend, ∃ op, lookupOp ops s.id = some op ∧ Succeeds op) →
      ∃ st' fs' ex',
        execLoop ops pend st fs tr ex = (st', fs', tr ++ goodTrace pend, ex', none) := by
  intro pend
  induction pend with
  | nil =>
    intro st fs tr ex _
    exact ⟨st, fs, ex, by simp [execLoop, goodTrace]⟩
  | cons s rest ih =>
    intro st fs tr ex hops
    obtain ⟨op, hl, h1, h2, h3⟩ := hops s (List.mem_cons_self s rest)
    obtain ⟨st', fs', ex', hrec⟩ := ih (completeStep (startStep st s.id) s.id)
      (saveState (saveState fs (startStep st s.id)) (completeStep (startStep st s.id) s.id))
      (tr ++ [TEvent.ledgerStart s.id, TEvent.checkDone s.id, TEvent.validateOp s.id,
        TEvent.execOp s.id, TEvent.ledgerComplete s.id])
      (ex ++ [(s.id, op)])
      (fun x hx => hops x (List.mem_cons_of_mem s hx))
    refine ⟨st', fs', ex', ?_⟩
    simp only [execLoop, hl, h1, h2, h3, Bool.false_eq_true, if_false, if_true,
      List.append_assoc, List.cons_append, List.nil_append, List.singleton_append]
    rw [hrec]
    simp [goodTrace, List.append_assoc]

theorem length_pos_iff_exists_mem {α : Type} {l : List α} : 0 < l.length ↔ ∃ a, a ∈ l := by
  cases l with
  | nil => simp
  | cons a tl => simp [Nat.succ_pos]

theorem mem_getCompletedSteps {st : InstallationState} {x : Step} :
    x ∈ getCompletedSteps st ↔ x ∈ st.steps ∧ x.status = Status.completed := by
  simp [getCompletedSteps, List.mem_filter]

/-! ### The claims -/

/-- C5: `canResume()` returns true iff at least one step has status
`completed` and at least one step has status `pending` or `failed`; in
particular it is false when no state is loaded (the `none` case), for a fresh
all-pending state, and for a fully completed state. -/
theorem canResume_characterization (ost : Option InstallationState) :
    canResume ost = true ↔
      ∃ st, ost = some st ∧
        (∃ s ∈ st.steps, s.status = Status.completed) ∧
        (∃ s ∈ st.steps, s.status = Status.pending ∨ s.status = Status.failed) := by
  cases ost with
  | none => simp [canResume]
  | some st =>
    rw [canResume, Bool.and_eq_true, decide_eq_true_eq, decide_eq_true_eq,
      length_pos_iff_exists_mem, length_pos_iff_exists_mem]
    constructor
    · rintro ⟨⟨x, hx⟩, ⟨y, hy⟩⟩
      obtain ⟨hx1, hx2⟩ := mem_getCompletedSteps.mp hx
      obtain ⟨hy1, hy2⟩ := mem_getPendingSteps.mp hy
      exact ⟨st, rfl, ⟨x, hx1, hx2⟩, ⟨y, hy1, hy2⟩⟩
    · rintro ⟨st2, hst2, ⟨x, hx1, hx2⟩, ⟨y, hy1, hy2⟩⟩
      injection hst2 with hst2
      subst hst2
      exact ⟨⟨x, mem_getCompletedSteps.mpr ⟨hx1, hx2⟩⟩,
             ⟨y, mem_getPendingSteps.mpr ⟨hy1, hy2⟩⟩⟩

/-- C6 counterexample: on a fresh host the very first persistence of the
ledger — the save performed by `initializeState` — writes the primary but no
backup (the backup copy of a not-yet-existing primary is silently skipped),
so it is false that both copies exist after every persistence operation. -/
theorem initialize_save_leaves_no_backup :
    (initializeAndSave { primary := none, backup := none } [(0, "createUser")]).2.backup
        = none ∧
      (initializeAndSave { primary := none, backup := none } [(0, "createUser")]).2.primary
        = some (initializeState [(0, "createUser")]) :=
  ⟨rfl, rfl⟩

/-- C6 amended: every persistence writes the primary, and the backup receives
the previous on-disk primary; hence after `initializeState` on a fresh host
only the primary exists, while after every persistence performed when a
primary already exists (in particular each transition primitive after a
completed initialization), both the primary and the backup copy exist. -/
theorem saveState_both_copies (fs : FS) (st prev : InstallationState)
    (h : fs.primary = some prev) :
    (saveState fs st).primary = some st ∧ (saveState fs st).backup = some prev := by
  rw [saveState, h]
  exact ⟨rfl, rfl⟩

theorem saveState_both_copies_witness :
    ({ primary := some (initializeState [(0, "a")]), backup := none } : FS).primary
        = some (initializeState [(0, "a")]) ∧
      (saveState { primary := some (initializeState [(0, "a")]), backup := none }
          (initializeState [(1, "b")])).primary = some (initializeState [(1, "b")]) ∧
      (saveState { primary := some (initializeState [(0, "a")]), backup := none }
          (initializeState [(1, "b")])).backup = some (initializeState [(0, "a")]) :=
  ⟨rfl, saveState_both_copies
    { primary := some (initializeState [(0, "a")]), backup := none }
    (initializeState [(1, "b")]) (initializeState [(0, "a")]) rfl⟩

theorem rollbackSeq_eq_map (l : List (Nat × OpBehavior)) (h : NoRollbackThrows l) :
    rollbackSeq l = l.map (fun p => TEvent.rollbackOp p.1) := by
  induction l with
  | nil => rfl
  | cons a tl ih =>
    obtain ⟨i, op⟩ := a
    have h0 : op.rollbackThrows = false := h (i, op) (List.mem_cons_self _ _)
    simp [rollbackSeq, h0, ih (fun p hp => h p (List.mem_cons_of_mem _ hp))]

/-- C10: `CompositeOperation.rollback()` reverses the stored operations array
in place: the first call invokes the per-operation rollbacks in reverse list
order, but it leaves the instance holding the reversed array, so a second
`rollback()` call on the same instance invokes them in the original forward
order. (Stated for operations whose rollbacks do not throw, so that both
loops run to completion.) -/
theorem compositeRollback_reverses_in_place (c : CompositeOperation)
    (h : NoRollbackThrows c.operations) :
    (compositeRollback c).2 = c.operations.reverse.map (fun p => TEvent.rollbackOp p.1) ∧
    (compositeRollback c).1.operations = c.operations.reverse ∧
    (compositeRollback (compositeRollback c).1).2 =
      c.operations.map (fun p => TEvent.rollbackOp p.1) := by
  have hrev : NoRollbackThrows c.operations.reverse := fun p hp =>
    h p (List.mem_reverse.mp hp)
  refine ⟨rollbackSeq_eq_map _ hrev, rfl, ?_⟩
  show rollbackSeq c.operations.reverse.reverse = _
  rw [List.reverse_reverse]
  exact rollbackSeq_eq_map _ h

theorem compositeRollback_reverses_in_place_witness :
    NoRollbackThrows [(0, opOk "A"), (1, opOk "B"), (2, opOk "C")] ∧
    (compositeRollback ⟨"comp", [(0, opOk "A"), (1, opOk "B"), (2, opOk "C")]⟩).2
        = [TEvent.rollbackOp 2, TEvent.rollbackOp 1, TEvent.rollbackOp 0] ∧
    (compositeRollback
        (compositeRollback ⟨"comp", [(0, opOk "A"), (1, opOk "B"), (2, opOk "C")]⟩).1).2
        = [TEvent.rollbackOp 0, TEvent.rollbackOp 1, TEvent.rollbackOp 2] := by
  have h : NoRollbackThrows [(0, opOk "A"), (1, opOk "B"), (2, opOk "C")] := by decide
  have hmain := compositeRollback_reverses_in_place
    ⟨"comp", [(0, opOk "A"), (1, opOk "B"), (2, opOk "C")]⟩ h
  exact ⟨h, by rw [hmain.1]; rfl, by rw [hmain.2.2]; rfl⟩

/-- C1: for an operation list `[A, B, C]` in which `A` and `B` succeed (and
are not skipped) and `C`'s execution fails, both the composite executor and
the transaction executor invoke exactly `B.rollback()` then `A.rollback()`,
in that order, and never invoke `C.rollback()`. -/
theorem rollback_order_on_failure (a b c : OpBehavior) (tm0 : TransactionManager)
    (ha : Succeeds a) (hb : Succeeds b) (hc : FailsExec c) :
    ((compositeExec [a, b, c]).1.filter TEvent.isRollback
        = [TEvent.rollbackOp 1, TEvent.rollbackOp 0]) ∧
    (TEvent.rollbackOp 2 ∉ (compositeExec [a, b, c]).1) ∧
    ((txExecute (txInitialize tm0 [(0, a), (1, b), (2, c)])).rb
        = [TEvent.rollbackOp 1, TEvent.rollbackOp 0]) ∧
    (TEvent.rollbackOp 2 ∉
      (txExecute (txInitialize tm0 [(0, a), (1, b), (2, c)])).fwd
        ++ (txExecute (txInitialize tm0 [(0, a), (1, b), (2, c)])).rb) := by
  obtain ⟨ha1, ha2, ha3⟩ := ha
  obtain ⟨hb1, hb2, hb3⟩ := hb
  obtain ⟨hc1, hc2, hc3⟩ := hc
  have hcomp : (compositeExec [a, b, c]).1 =
      [TEvent.checkDone 0, TEvent.validateOp 0, TEvent.execOp 0,
       TEvent.checkDone 1, TEvent.validateOp 1, TEvent.execOp 1,
       TEvent.checkDone 2, TEvent.validateOp 2, TEvent.execOp 2,
       TEvent.rollbackOp 1, TEvent.rollbackOp 0] := by
    simp [compositeExec, compositeLoop, rollbackPhase, ha1, ha2, ha3, hb1, hb2, hb3,
      hc1, hc2, hc3]
  refine ⟨by rw [hcomp]; decide, by rw [hcomp]; decide, ?_, ?_⟩
  · simp [txExecute, txInitialize, initializeState, getPendingSteps, isPendingOrFailed,
      execLoop, lookupOp, ha1, ha2, ha3, hb1, hb2, hb3, hc1, hc2, hc3,
      startStep, completeStep, failStep, skipStep, updateFirst, saveState,
      rollbackPhase, setInProgress, setCompleted, setFailed]
  · simp [txExecute, txInitialize, initializeState, getPendingSteps, isPendingOrFailed,
      execLoop, lookupOp, ha1, ha2, ha3, hb1, hb2, hb3, hc1, hc2, hc3,
      startStep, completeStep, failStep, skipStep, updateFirst, saveState,
      rollbackPhase, setInProgress, setCompleted, setFailed]

theorem rollback_order_on_failure_witness :
    Succeeds (opOk "A") ∧ Succeeds (opOk "B") ∧ FailsExec (opExecFails "C" "boom") ∧
    ((compositeExec [opOk "A", opOk "B", opExecFails "C" "boom"]).1.filter TEvent.isRollback
        = [TEvent.rollbackOp 1, TEvent.rollbackOp 0]) ∧
    (TEvent.rollbackOp 2 ∉ (compositeExec [opOk "A", opOk "B", opExecFails "C" "boom"]).1) := by
  have h := rollback_order_on_failure (opOk "A") (opOk "B") (opExecFails "C" "boom")
    ⟨none, ⟨none, none⟩, []⟩ (by decide) (by decide) (by decide)
  exact ⟨by decide, by decide, by decide, h.1, h.2.1⟩

/-- C3: for `[A, B, C]` where `C`'s execution fails and `B.rollback()`
throws, `A.rollback()` is still attempted (after `B`'s), and the returned
result carries the original failure message coming from `C`, not the
rollback error — in both the composite executor and the transaction
executor (whose failure result also reports 2 completed steps of 3 and
`canResume = true`). -/
theorem best_effort_rollback_keeps_original_error (a b c : OpBehavior)
    (tm0 : TransactionManager) (ha : Succeeds a) (hb : Succeeds b)
    (_hbr : b.rollbackThrows = true) (hc : FailsExec c) :
    ((compositeExec [a, b, c]).1.filter TEvent.isRollback
        = [TEvent.rollbackOp 1, TEvent.rollbackOp 0]) ∧
    ((compositeExec [a, b, c]).2 =
      { success := false, error := some (c.description ++ " failed: " ++ jsStr c.execErr) }) ∧
    ((txExecute (txInitialize tm0 [(0, a), (1, b), (2, c)])).rb
        = [TEvent.rollbackOp 1, TEvent.rollbackOp 0]) ∧
    ((txExecute (txInitialize tm0 [(0, a), (1, b), (2, c)])).result =
      Except.ok ({ success := false, completedSteps := 2, totalSteps := 3,
                   error := some (c.description ++ " failed: "
                     ++ c.execErr.getD "Operation failed"),
                   canResume := true } : TransactionResult)) := by
  obtain ⟨ha1, ha2, ha3⟩ := ha
  obtain ⟨hb1, hb2, hb3⟩ := hb
  obtain ⟨hc1, hc2, hc3⟩ := hc
  refine ⟨?_, ?_, ?_, ?_⟩
  · have hcomp : (compositeExec [a, b, c]).1 =
        [TEvent.checkDone 0, TEvent.validateOp 0, TEvent.execOp 0,
         TEvent.checkDone 1, TEvent.validateOp 1, TEvent.execOp 1,
         TEvent.checkDone 2, TEvent.validateOp 2, TEvent.execOp 2,
         TEvent.rollbackOp 1, TEvent.rollbackOp 0] := by
      simp [compositeExec, compositeLoop, rollbackPhase, ha1, ha2, ha3, hb1, hb2, hb3,
        hc1, hc2, hc3]
    rw [hcomp]
    decide
  · simp [compositeExec, compositeLoop, rollbackPhase, ha1, ha2, ha3, hb1, hb2, hb3,
      hc1, hc2, hc3]
  · simp [txExecute, txInitialize, initializeState, getPendingSteps, isPendingOrFailed,
      execLoop, lookupOp, ha1, ha2, ha3, hb1, hb2, hb3, hc1, hc2, hc3,
      startStep, completeStep, failStep, skipStep, updateFirst, saveState,
      rollbackPhase, setInProgress, setCompleted, setFailed]
  · simp [txExecute, txInitialize, initializeState, getPendingSteps, isPendingOrFailed,
      execLoop, lookupOp, ha1, ha2, ha3, hb1, hb2, hb3, hc1, hc2, hc3,
      startStep, completeStep, failStep, skipStep, updateFirst, saveState,
      rollbackPhase, setInProgress, setCompleted, setFailed, getCompletedSteps,
      canResume, getProgress]

theorem best_effort_rollback_keeps_original_error_witness :
    Succeeds (opOk "A") ∧ Succeeds (opOkRollbackThrows "B") ∧
    (opOkRollbackThrows "B").rollbackThrows = true ∧
    FailsExec (opExecFails "C" "boom") ∧
    ((compositeExec [opOk "A", opOkRollbackThrows "B", opExecFails "C" "boom"]).2 =
      { success := false, error := some "C failed: boom" }) := by
  have h := best_effort_rollback_keeps_original_error (opOk "A") (opOkRollbackThrows "B")
    (opExecFails "C" "boom") ⟨none, ⟨none, none⟩, []⟩ (by decide) (by decide) rfl (by decide)
  refine ⟨by decide, by decide, rfl, by decide, ?_⟩
  rw [h.2.1]
  rfl

/-- C4: resuming a rehydrated transaction with steps `[A: completed,
B: failed, C: pending]` and a populated id↔Operation map attempts execution
of exactly `B` then `C`, in that order, and no event of the whole call —
execution, validation, idempotency check, ledger transition or rollback —
concerns `A`. -/
theorem resume_runs_exactly_unfinished_steps (opA opB opC : OpBehavior)
    (hB : Succeeds opB) (hC : Succeeds opC) :
    (((txResume ⟨some resumeScenarioState, ⟨some resumeScenarioState, none⟩,
          [(0, opA), (1, opB), (2, opC)]⟩).fwd
        ++ (txResume ⟨some resumeScenarioState, ⟨some resumeScenarioState, none⟩,
          [(0, opA), (1, opB), (2, opC)]⟩).rb).filter TEvent.isExec
      = [TEvent.execOp 1, TEvent.execOp 2]) ∧
    (∀ e ∈ (txResume ⟨some resumeScenarioState, ⟨some resumeScenarioState, none⟩,
          [(0, opA), (1, opB), (2, opC)]⟩).fwd
        ++ (txResume ⟨some resumeScenarioState, ⟨some resumeScenarioState, none⟩,
          [(0, opA), (1, opB), (2, opC)]⟩).rb, e.evId ≠ 0) := by
  obtain ⟨hb1, hb2, hb3⟩ := hB
  obtain ⟨hc1, hc2, hc3⟩ := hC
  have htr : (txResume ⟨some resumeScenarioState, ⟨some resumeScenarioState, none⟩,
          [(0, opA), (1, opB), (2, opC)]⟩).fwd
        ++ (txResume ⟨some resumeScenarioState, ⟨some resumeScenarioState, none⟩,
          [(0, opA), (1, opB), (2, opC)]⟩).rb
      = [TEvent.ledgerStart 1, TEvent.checkDone 1, TEvent.validateOp 1, TEvent.execOp 1,
         TEvent.ledgerComplete 1, TEvent.ledgerStart 2, TEvent.checkDone 2,
         TEvent.validateOp 2, TEvent.execOp 2, TEvent.ledgerComplete 2] := by
    simp [txResume, txExecute, resumeScenarioState, getPendingSteps, isPendingOrFailed,
      canResume, getCompletedSteps, execLoop, lookupOp, hb1, hb2, hb3, hc1, hc2, hc3,
      startStep, completeStep, failStep, skipStep, updateFirst, saveState,
      setInProgress, setCompleted]
  rw [htr]
  constructor
  · decide
  · decide

theorem resume_runs_exactly_unfinished_steps_witness :
    Succeeds (opOk "B") ∧ Succeeds (opOk "C") ∧
    (((txResume ⟨some resumeScenarioState, ⟨some resumeScenarioState, none⟩,
          [(0, opOk "A"), (1, opOk "B"), (2, opOk "C")]⟩).fwd
        ++ (txResume ⟨some resumeScenarioState, ⟨some resumeScenarioState, none⟩,
          [(0, opOk "A"), (1, opOk "B"), (2, opOk "C")]⟩).rb).filter TEvent.isExec
      = [TEvent.execOp 1, TEvent.execOp 2]) :=
  ⟨by decide, by decide,
   (resume_runs_exactly_unfinished_steps (opOk "A") (opOk "B") (opOk "C")
      (by decide) (by decide)).1⟩

/-- C2 counterexample: a freshly constructed `TransactionManager` (its
id↔Operation map empty, as after a process restart) over a persisted state
with unfinished steps: `loadExisting()` returns true, yet `resume()` executes
nothing — it produces no events at all, in particular no `execute()`
invocation — and returns a failure result whose error is
`"Operation not found for step: 1"`. The surviving ledger alone therefore
does not suffice for `resume()` to run the unfinished steps. -/
theorem fresh_manager_resume_runs_nothing :
    ((loadExisting ⟨none, ⟨some resumeScenarioState, none⟩, []⟩).2 = true) ∧
    ((txResume (loadExisting ⟨none, ⟨some resumeScenarioState, none⟩, []⟩).1).fwd = []) ∧
    ((txResume (loadExisting ⟨none, ⟨some resumeScenarioState, none⟩, []⟩).1).rb = []) ∧
    ((txResume (loadExisting ⟨none, ⟨some resumeScenarioState, none⟩, []⟩).1).result =
      Except.ok ({ success := false, completedSteps := 1, totalSteps := 3,
                   error := some "Operation not found for step: 1",
                   canResume := true } : TransactionResult)) :=
  ⟨rfl, rfl, rfl, rfl⟩

/-- C2 corrected: the persisted ledger surviving the process exit does not by
itself suffice (see the counterexample); resume runs the unfinished steps
once the caller has also repopulated the id↔Operation map with an operation
for every persisted pending/failed step id (e.g. via `addOperation` using the
persisted ids). Then a freshly constructed manager's `loadExisting()` returns
true and `resume()` executes exactly the not-yet-completed steps in order and
reports success. -/
theorem resume_runs_pending_once_map_repopulated (fs0 : FS)
    (st : InstallationState) (ops : List (Nat × OpBehavior))
    (hprim : fs0.primary = some st)
    (hcr : canResume (some st) = true)
    (hops : CoversPending ops st) :
    ((loadExisting ⟨none, fs0, ops⟩).2 = true) ∧
    (((txResume (loadExisting ⟨none, fs0, ops⟩).1).fwd
        ++ (txResume (loadExisting ⟨none, fs0, ops⟩).1).rb).filter TEvent.isExec
      = (getPendingSteps st).map (fun s => TEvent.execOp s.id)) ∧
    ((txResume (loadExisting ⟨none, fs0, ops⟩).1).result =
      Except.ok ({ success := true, completedSteps := st.totalSteps,
                   totalSteps := st.totalSteps,
                   canResume := false } : TransactionResult)) := by
  have hload : loadExisting ⟨none, fs0, ops⟩ = (⟨some st, fs0, ops⟩, true) := by
    simp only [loadExisting, hprim]
  obtain ⟨st', fs', ex', heq⟩ := execLoop_good ops (getPendingSteps st) st fs0 [] []
    (fun s hs => by
      have hg := hops s hs
      unfold goodFor at hg
      cases hl : lookupOp ops s.id with
      | none => rw [hl] at hg; cases hg
      | some op => rw [hl] at hg; exact ⟨op, rfl, hg⟩)
  rw [List.nil_append] at heq
  have htx : txExecute ⟨some st, fs0, ops⟩ =
      ⟨⟨some st', fs', ops⟩, goodTrace (getPendingSteps st), [],
       Except.ok { success := true, completedSteps := st.totalSteps,
                   totalSteps := st.totalSteps, canResume := false }⟩ := by
    simp only [txExecute]
    rw [heq]
  have hres : txResume ⟨some st, fs0, ops⟩ = txExecute ⟨some st, fs0, ops⟩ := by
    simp only [txResume, hprim, hcr, if_true]
  rw [hload]
  refine ⟨rfl, ?_, ?_⟩
  · rw [hres, htx]
    simp [goodTrace_filter_isExec]
  · rw [hres, htx]

theorem resume_runs_pending_once_map_repopulated_witness :
    (⟨some resumeScenarioState, none⟩ : FS).primary = some resumeScenarioState ∧
    canResume (some resumeScenarioState) = true ∧
    CoversPending [(0, opOk "A"), (1, opOk "B"), (2, opOk "C")] resumeScenarioState ∧
    (((txResume (loadExisting ⟨none, ⟨some resumeScenarioState, none⟩,
          [(0, opOk "A"), (1, opOk "B"), (2, opOk "C")]⟩).1).fwd
        ++ (txResume (loadExisting ⟨none, ⟨some resumeScenarioState, none⟩,
          [(0, opOk "A"), (1, opOk "B"), (2, opOk "C")]⟩).1).rb).filter TEvent.isExec
      = (getPendingSteps resumeScenarioState).map (fun s => TEvent.execOp s.id)) :=
  ⟨rfl, by decide, by decide,
   (resume_runs_pending_once_map_repopulated ⟨some resumeScenarioState, none⟩
      resumeScenarioState [(0, opOk "A"), (1, opOk "B"), (2, opOk "C")]
      rfl (by decide) (by decide)).2.1⟩

/-- C7: over any sequence of `execute()`/`resume()` calls on one transaction
that contains no `clear()` and no re-initialize, `getProgress()` is
non-decreasing: the value observed after any prefix of the sequence is at
most the value observed after any extension of that prefix. Hypotheses: the
in-memory state is in sync with the persisted primary (as `initialize()` and
`loadExisting()` establish), and the ledger's step ids are distinct (the data
model declares ids unique within a transaction). -/
theorem progress_monotone_across_calls (tm : TransactionManager)
    (calls1 calls2 : List TxCall)
    (hsync : tm.fs.primary = tm.ledger) (hnd : LedgerIdsNodup tm) :
    txGetProgress (runCalls tm calls1).1 ≤
      txGetProgress (runCalls tm (calls1 ++ calls2)).1 := by
  have hnd' : ∀ st, tm.ledger = some st → (st.steps.map Step.id).Nodup := by
    intro st h
    unfold LedgerIdsNodup at hnd
    rw [h] at hnd
    exact hnd
  obtain ⟨h1, h2, _, _⟩ := runCalls_spec calls1 tm hsync hnd'
  obtain ⟨_, _, h3, _⟩ := runCalls_spec calls2 (runCalls tm calls1).1 h1 h2
  rw [runCalls_append calls1 calls2 tm]
  exact h3

theorem progress_monotone_across_calls_witness :
    failScenarioTm.fs.primary = failScenarioTm.ledger ∧
    LedgerIdsNodup failScenarioTm ∧
    txGetProgress (runCalls failScenarioTm [TxCall.execCall]).1 ≤
      txGetProgress (runCalls failScenarioTm
        ([TxCall.execCall] ++ [TxCall.resumeCall, TxCall.execCall])).1 :=
  ⟨rfl, by decide,
   progress_monotone_across_calls failScenarioTm [TxCall.execCall]
     [TxCall.resumeCall, TxCall.execCall] rfl (by decide)⟩

/-- C8: during the rollback phase of a failed `execute()` no ledger status
transition is applied — the rollback-phase trace consists solely of
`rollback()` invocations; every operation rolled back in this attempt has its
step still `completed` in the final ledger; and the whole call applies at
most one `failStep` transition (to the triggering step, during the forward
phase). -/
theorem rollback_phase_frames_ledger (tm : TransactionManager) (st : InstallationState)
    (hledger : tm.ledger = some st) (hsync : tm.fs.primary = some st)
    (hnodup : (st.steps.map Step.id).Nodup) :
    (∀ e ∈ (txExecute tm).rb, e.isRollback = true) ∧
    (∀ st', (txExecute tm).tm.ledger = some st' →
      ∀ i, TEvent.rollbackOp i ∈ (txExecute tm).rb →
        findStatus st' i = some Status.completed) ∧
    ((((txExecute tm).fwd ++ (txExecute tm).rb).filter TEvent.isLedgerFail).length ≤ 1) := by
  rcases hE : execLoop tm.ops (getPendingSteps st) st tm.fs [] [] with
    ⟨st1, fs1, fwd, ex, err⟩
  obtain ⟨hids, htot, hcnt, hfsp, hexC, hstat⟩ :=
    execLoop_state_spec tm.ops (getPendingSteps st) st tm.fs [] []
      st1 fs1 fwd ex err hE (pending_ids_nodup hnodup) (pending_found hnodup)
      hsync (by intro p hp; cases hp) (by intro p hp; cases hp)
  obtain ⟨⟨d, htr, hid, hcnt1, hnone⟩, ⟨d2, hex2, hid2⟩⟩ :=
    execLoop_trace_spec tm.ops (getPendingSteps st) st tm.fs [] []
      st1 fs1 fwd ex err hE
  rw [List.nil_append] at htr hex2
  subst htr
  subst hex2
  cases err with
  | none =>
    refine ⟨?_, ?_, ?_⟩
    · intro e he
      simp only [txExecute, hledger, hE] at he
      cases he
    · intro st' _ i hi
      simp only [txExecute, hledger, hE] at hi
      cases hi
    · simp only [txExecute, hledger, hE, List.append_nil]
      rw [hnone rfl]
      exact Nat.zero_le 1
  | some msg =>
    refine ⟨?_, ?_, ?_⟩
    · intro e he
      simp only [txExecute, hledger, hE] at he
      exact rollbackPhase_isRollback he
    · intro st' hst' i hi
      simp only [txExecute, hledger, hE] at hst' hi
      injection hst' with hst'
      subst hst'
      obtain ⟨p, hp, hpe⟩ := mem_rollbackPhase.mp hi
      injection hpe with hpe
      subst hpe
      exact hexC p (List.mem_reverse.mp hp)
    · simp only [txExecute, hledger, hE]
      rw [List.filter_append, rollbackPhase_no_ledgerFail, List.append_nil]
      exact hcnt1

theorem rollback_phase_frames_ledger_witness :
    failScenarioTm.ledger = some failScenarioState ∧
    failScenarioTm.fs.primary = some failScenarioState ∧
    (failScenarioState.steps.map Step.id).Nodup ∧
    ((((txExecute failScenarioTm).fwd ++ (txExecute failScenarioTm).rb).filter
        TEvent.isLedgerFail).length ≤ 1) :=
  ⟨rfl, rfl, by decide,
   (rollback_phase_frames_ledger failScenarioTm failScenarioState rfl rfl (by decide)).2.2⟩

/-- C9: `getPendingSteps()` returns exactly the steps whose status is
`pending` or `failed`; consequently a step left `in_progress` by a crash
between `startStep` and its completion is not in `getPendingSteps()`, is not
in `getCompletedSteps()` — so it counts toward neither the completed nor the
pending side of `canResume()` — and is never re-attempted by any later
sequence of `execute()`/`resume()` calls: no event of any such call carries
its id. -/
theorem in_progress_steps_are_stranded (st : InstallationState)
    (tm : TransactionManager) (s : Step) (calls : List TxCall)
    (hledger : tm.ledger = some st) (hsync : tm.fs.primary = some st)
    (hnodup : (st.steps.map Step.id).Nodup)
    (hs : s ∈ st.steps) (hprog : s.status = Status.inProgress) :
    (∀ x, x ∈ getPendingSteps st ↔
      x ∈ st.steps ∧ (x.status = Status.pending ∨ x.status = Status.failed)) ∧
    s ∉ getPendingSteps st ∧
    s ∉ getCompletedSteps st ∧
    (∀ e ∈ (runCalls tm calls).2, e.evId ≠ s.id) := by
  have hfs : findStatus st s.id = some Status.inProgress := by
    rw [findStatus, findStep, find?_self_of_nodup hnodup hs]
    simp [hprog]
  refine ⟨fun x => mem_getPendingSteps, ?_, ?_, ?_⟩
  · intro hx
    obtain ⟨_, h2⟩ := mem_getPendingSteps.mp hx
    rcases h2 with h2 | h2 <;> rw [hprog] at h2 <;> cases h2
  · intro hx
    obtain ⟨_, h2⟩ := mem_getCompletedSteps.mp hx
    rw [hprog] at h2
    cases h2
  · have hnd' : ∀ st0, tm.ledger = some st0 → (st0.steps.map Step.id).Nodup := by
      intro st0 h
      rw [hledger] at h
      injection h with h
      subst h
      exact hnodup
    have hsync' : tm.fs.primary = tm.ledger := by rw [hsync, hledger]
    obtain ⟨_, _, _, h4⟩ := runCalls_spec calls tm hsync' hnd'
    have htx : txFindStatus tm s.id = some Status.inProgress := by
      simp only [txFindStatus, hledger]
      exact hfs
    exact (h4 s.id htx).2

theorem in_progress_steps_are_stranded_witness :
    (⟨some crashScenarioState, ⟨some crashScenarioState, none⟩, failScenarioOps⟩
        : TransactionManager).ledger = some crashScenarioState ∧
    (⟨some crashScenarioState, ⟨some crashScenarioState, none⟩, failScenarioOps⟩
        : TransactionManager).fs.primary = some crashScenarioState ∧
    (crashScenarioState.steps.map Step.id).Nodup ∧
    ({ id := 1, description := "B", status := Status.inProgress } : Step)
        ∈ crashScenarioState.steps ∧
    ({ id := 1, description := "B", status := Status.inProgress } : Step).status
        = Status.inProgress ∧
    ({ id := 1, description := "B", status := Status.inProgress } : Step)
        ∉ getPendingSteps crashScenarioState :=
  ⟨rfl, rfl, by decide, by decide, rfl,
   (in_progress_steps_are_stranded crashScenarioState
      ⟨some crashScenarioState, ⟨some crashScenarioState, none⟩, failScenarioOps⟩
      { id := 1, description := "B", status := Status.inProgress }
      [TxCall.execCall] rfl rfl (by decide) (by decide) rfl).2.1⟩

end D9
